import Mathlib

/-!
Shallow embedding of the core of hydra's instantiation engine
(file hydra/_internal/utils.py): the dotted-path symbol resolver
`_locate`, the policy extractors `_is_recursive` and `_pop_convert_mode`,
the target extractor `_get_target_type`, and the recursive tree walk
`_get_kwargs`, together with theorems checking the specified behavior
of each component against the embedded code.
-/

/-- Opaque handle for a Python runtime object: either a module (identified by
its dotted import path) or a non-module value (identified by a numeric id). -/
inductive PyObj where
  | module (path : String)
  | value (id : Nat)
  deriving DecidableEq, Repr

/-- The import and attribute environment the resolver runs against: which
dotted paths import successfully, which attributes modules and plain values
expose before any fallback import runs, and which objects count as types or
as callables. -/
structure LocateEnv where
  importable : String → Bool
  mattr : String → String → Option PyObj
  vattr : Nat → String → Option PyObj
  isType : PyObj → Bool
  isCallable : PyObj → Bool

/-- importlib.import_module: importing the empty path always fails
(ValueError in Python, caught by the caller); otherwise the environment
decides, and a successful import yields the module at that path. -/
def pyImport (env : LocateEnv) (p : String) : Option PyObj :=
  if p = "" then none
  else if env.importable p then some (.module p) else none

/-- getattr / hasattr on the embedded objects. -/
def pyGetattr (env : LocateEnv) : PyObj → String → Option PyObj
  | .module q, a => env.mattr q a
  | .value i, a => env.vattr i a

/-- Python str.split on the dot character, done on the character list. -/
def splitDots : List Char → List Char → List String
  | [], acc => [String.mk acc.reverse]
  | c :: cs, acc =>
    if c = '.' then String.mk acc.reverse :: splitDots cs []
    else splitDots cs (c :: acc)

/-- parts = [part for part in path.split(".") if part] -/
def pyParts (path : String) : List String :=
  (splitDots path.data []).filter (fun p => decide (p ≠ ""))

/-- Python ".".join. -/
def dotJoin : List String → String
  | [] => ""
  | [p] => p
  | p :: ps => p ++ "." ++ dotJoin ps

/-- The distinct failure outcomes of `_locate`. -/
inductive LocateErr where
  | emptyPath      -- ImportError "Empty path"
  | loadModule     -- ImportError "Error loading module ..." raised when the n = 0 attempt fails
  | loadSubmodule  -- ImportError "Encountered error ..." when a fallback submodule import fails
  | invalidType    -- ValueError: resolved object is neither a type nor callable
  | nameError      -- UnboundLocalError: the loop variable n was never bound
  | attributeError -- AttributeError from getattr after a successful fallback import
  deriving DecidableEq, Repr

/-- The module-prefix loop of `_locate`: for n in reversed(range(len(parts)))
try importing the first n segments; a failure at n = 0 raises, a success
breaks with the base module (module objects are truthy). The list argument is
the remaining sequence of values of n. -/
def findMod (env : LocateEnv) (parts : List String) :
    List Nat → Except LocateErr (Option (Nat × PyObj))
  | [] => .ok none
  | n :: rest =>
    match pyImport env (dotJoin (parts.take n)) with
    | some m => .ok (some (n, m))
    | none => if n = 0 then .error .loadModule else findMod env parts rest

/-- The attribute-traversal loop of `_locate`, with the fallback import of
the accumulated dotted path. As importlib does, a successful fallback import
of mod ++ "." ++ part binds the attribute part on the module named mod; on
any other object the attribute is still missing and getattr raises. -/
def pyTraverse (env : LocateEnv) (mod : String) (obj : PyObj) :
    List String → Except LocateErr PyObj
  | [] => .ok obj
  | part :: rest =>
    match pyGetattr env obj part with
    | some o => pyTraverse env (mod ++ "." ++ part) o rest
    | none =>
      match pyImport env (mod ++ "." ++ part) with
      | none => .error .loadSubmodule
      | some _ =>
        match obj with
        | .module q =>
          if q = mod then
            pyTraverse env (mod ++ "." ++ part) (.module (mod ++ "." ++ part)) rest
          else .error .attributeError
        | .value _ => .error .attributeError

/-- The final type-or-callable check of `_locate`. -/
def finalCheck (env : LocateEnv) (obj : PyObj) : Except LocateErr PyObj :=
  if env.isType obj then .ok obj
  else if env.isCallable obj then .ok obj
  else .error .invalidType

/-- Embeds `_locate` (hydra/_internal/utils.py, lines 493-538). When every
dot-separated piece of the path is empty the Python loop body never runs and
the later slice parts[n:] reads the never-bound loop variable n, raising
UnboundLocalError: the nameError outcome. The builtins fallback object is
unreachable as a base: the loop either breaks with a module or raises at
n = 0. -/
def pyLocate (env : LocateEnv) (path : String) : Except LocateErr PyObj :=
  if path = "" then .error .emptyPath
  else
    match findMod env (pyParts path) ((List.range (pyParts path).length).reverse) with
    | .error e => .error e
    | .ok none => .error .nameError
    | .ok (some (n, m)) =>
      match pyTraverse env (dotJoin ((pyParts path).take n)) m ((pyParts path).drop n) with
      | .error e => .error e
      | .ok obj => finalCheck env obj

/-- Spec-side prefix search for claim C3, following the spec's words: no
special case at n = 0 and no raise inside the loop; if no candidate imports
the search simply fails. -/
def findModSpec (env : LocateEnv) (parts : List String) :
    List Nat → Option (Nat × PyObj)
  | [] => none
  | n :: rest =>
    match pyImport env (dotJoin (parts.take n)) with
    | some m => some (n, m)
    | none => findModSpec env parts rest

/-- Spec-side resolver for claim C3, following the spec's words: the prefix
search starts from the longest prefix, all segments included, and shrinks one
segment at a time down to the empty prefix; the first prefix that imports
becomes the base object, the remaining segments are attribute accesses with
the same fallback import, and resolution fails if no prefix imports at all.
Used only to compare the spec's description against pyLocate. -/
def locateSpecAllSegments (env : LocateEnv) (path : String) : Except LocateErr PyObj :=
  if path = "" then .error .emptyPath
  else
    match findModSpec env (pyParts path) ((List.range ((pyParts path).length + 1)).reverse) with
    | none => .error .loadModule
    | some (n, m) =>
      match pyTraverse env (dotJoin ((pyParts path).take n)) m ((pyParts path).drop n) with
      | .error e => .error e
      | .ok obj => finalCheck env obj

/-- The hydra ConvertMode enumeration (NONE / PARTIAL / ALL in the source;
the middle constructor is shortened to PART here). -/
inductive ConvertMode where
  | NONE
  | PART
  | ALL
  deriving DecidableEq, Repr

/-- A config tree node: an OmegaConf DictConfig (with its object-type tag and
ordered fields), a ListConfig (with its tag and elements), or a scalar value:
None, a string, an int, a bool, a ConvertMode enumeration value, or an opaque
Python object (targets and constructed objects under allow_objects). -/
inductive CNode where
  | null
  | str (s : String)
  | int (i : Int)
  | bool (b : Bool)
  | cmode (m : ConvertMode)
  | obj (o : PyObj)
  | dict (tag : Option String) (fields : List (String × CNode))
  | list (tag : Option String) (elems : List CNode)
  deriving Repr

/-- The ordered field set of a mapping node (keys are unique in real configs). -/
abbrev Fields := List (String × CNode)

/-- Key lookup in a mapping's field list. -/
def lookupField : Fields → String → Option CNode
  | [], _ => none
  | (k, v) :: rest, key => if k = key then some v else lookupField rest key

/-- Python's `key in d`. -/
def containsKey (d : Fields) (key : String) : Bool :=
  (lookupField d key).isSome

/-- Effect of Python's d.pop(key) on the field list (keys are unique, so
removing every binding of the key models removing the one binding). -/
def removeField : Fields → String → Fields
  | [], _ => []
  | (k, v) :: rest, key =>
    if k = key then removeField rest key else (k, v) :: removeField rest key

/-- OmegaConf.is_config: dict and list nodes are configs. -/
def isConfigNode : CNode → Bool
  | .dict _ _ => true
  | .list _ _ => true
  | _ => false

/-- Embeds `_is_target`: a non-None dict node containing the key _target_. -/
def isTargetNode : CNode → Bool
  | .dict _ fs => containsKey fs "_target_"
  | _ => false

/-- The object-type tag (metadata.object_type) of a container node. -/
def tagOf : CNode → Option String
  | .dict t _ => t
  | .list t _ => t
  | _ => none

/-- Assignment to a container node's metadata.object_type. -/
def setTag (t : Option String) : CNode → CNode
  | .dict _ fs => .dict t fs
  | .list _ xs => .list t xs
  | v => v

/-- A scalar in the sense of the `_get_kwargs` walk: neither None nor a
config container, so it falls through every branch and is copied verbatim. -/
def isScalarNode : CNode → Bool
  | .null => false
  | .dict _ _ => false
  | .list _ _ => false
  | _ => true

/-- The error outcomes of the instantiation helpers. -/
inductive InstErr where
  | recursiveNotBool      -- ValueError: _recursive_ flag must be a bool
  | missingTarget         -- InstantiationException "Unable to determine target"
  | unsupportedTargetType -- InstantiationException "Unsupported target type"
  | convertBadString      -- InstantiationException "Unsupported _convert_ value"
  | convertBadType        -- InstantiationException "_convert_ must be a string or ConvertMode enum"
  | locateErr (e : LocateErr) -- an error escaping from _locate
  | assertionError        -- the is_config assertion at the top of _get_kwargs
  deriving DecidableEq, Repr

/-- The inner helper `_is_rec` of `_is_recursive`, split into its read and
check part: if the key _recursive_ is present its value is popped and must be
a bool, otherwise there is no declared flag. The removal itself is modelled
by removeField at the call sites. -/
def checkRecFlag (d : Fields) : Except InstErr (Option Bool) :=
  match lookupField d "_recursive_" with
  | none => .ok none
  | some (.bool b) => .ok (some b)
  | some _ => .error .recursiveNotBool

/-- Embeds `_is_recursive` (lines 547-565): pop the flag from the overlay
first, then from the node; the overlay's value wins, then the node's, then
the default true; both sources lose the key. Returns the flag and the two
popped field lists. -/
def isRecursive (config kwargs : Fields) :
    Except InstErr (Bool × Fields × Fields) :=
  match checkRecFlag kwargs with
  | .error e => .error e
  | .ok kwrec =>
    match checkRecFlag config with
    | .error e => .error e
    | .ok cfgrec =>
      .ok ((kwrec <|> cfgrec).getD true,
           removeField config "_recursive_", removeField kwargs "_recursive_")

/-- A popped _target_ value of None is treated as absent (the Python code
initializes both candidates to None and tests `is not None`). -/
def nonNullV : Option CNode → Option CNode
  | some .null => none
  | some v => some v
  | none => none

/-- The target value `_get_target_type` selects: the overlay's popped
_target_ if it is not None, else the node's popped _target_ if not None. -/
def selTarget (config kwargs : Fields) : Option CNode :=
  (nonNullV (lookupField kwargs "_target_")).orElse
    (fun _ => nonNullV (lookupField config "_target_"))

/-- Embeds `_get_target_type` (lines 589-614): pop _target_ from both
sources, prefer the overlay's value, fail when neither supplies one, resolve
a string through _locate, accept a type or a callable directly, and reject
anything else. Returns the resolved object and the two popped field lists. -/
def getTargetType (env : LocateEnv) (config kwargs : Fields) :
    Except InstErr (PyObj × Fields × Fields) :=
  let config2 := removeField config "_target_"
  let kwargs2 := removeField kwargs "_target_"
  match selTarget config kwargs with
  | none => .error .missingTarget
  | some (.str s) =>
    match pyLocate env s with
    | .ok o => .ok (o, config2, kwargs2)
    | .error e => .error (.locateErr e)
  | some (.obj o) =>
    if env.isType o then .ok (o, config2, kwargs2)
    else if env.isCallable o then .ok (o, config2, kwargs2)
    else .error .unsupportedTargetType
  | some _ => .error .unsupportedTargetType

/-- Embeds `_pop_convert_mode` (lines 617-644): default NONE when the key is
absent; a popped None is skipped by the `is not None` guard and keeps the
default; the three literal strings map to the enumeration; any other string
raises; a ConvertMode value passes through; anything else raises. Returns
the mode and the popped field list. -/
def popConvertMode (d : Fields) : Except InstErr (ConvertMode × Fields) :=
  match lookupField d "_convert_" with
  | none => .ok (.NONE, d)
  | some v =>
    match v with
    | .null => .ok (.NONE, removeField d "_convert_")
    | .str s =>
      if s = "none" then .ok (.NONE, removeField d "_convert_")
      else if s = "partial" then .ok (.PART, removeField d "_convert_")
      else if s = "all" then .ok (.ALL, removeField d "_convert_")
      else .error .convertBadString
    | .cmode m => .ok (m, removeField d "_convert_")
    | _ => .error .convertBadType

mutual
/-- OmegaConf merge of one destination value with one source value: two dict
nodes merge recursively (the destination keeps its object-type tag, the
overlays built from plain keyword dicts being untyped); in every other case
the source value replaces the destination value. -/
def mergeNode : CNode → CNode → CNode
  | .dict t1 f1, .dict _ f2 =>
    .dict t1 (mergeInto f1 f2 ++ f2.filter (fun p => !containsKey f1 p.1))
  | _, v2 => v2

/-- The destination-ordered part of a dict merge: each destination field
keeps its place, merged with the source value under the same key if any. -/
def mergeInto : Fields → Fields → Fields
  | [], _ => []
  | (k, v) :: rest, f2 =>
    (k, match lookupField f2 k with
        | some w => mergeNode v w
        | none => v) :: mergeInto rest f2
end

/-- Embeds config.merge_with(overrides) on the field lists of two dict
nodes: destination keys in order (deep-merged on collision), then the
source-only keys appended in source order. -/
def mergeFields (f1 f2 : Fields) : Fields :=
  mergeInto f1 f2 ++ f2.filter (fun p => !containsKey f1 p.1)

mutual
/-- Embeds `_get_kwargs(value, root=False)` with no keyword overlay, the
form of every internal recursive call of the walk: the empty overlay makes
the merge step a no-op, so it is not repeated here; the result node keeps
the config's object-type tag since root is false. The second component of
every pair below is the post-mutation state of the corresponding input. -/
def gkWorker (inst : CNode → CNode) : CNode → Except InstErr (CNode × CNode)
  | .list tag elems =>
    match gkList inst elems with
    | .error e => .error e
    | .ok (res, post) => .ok (.list none res, .list tag post)
  | .dict tag fields =>
    match checkRecFlag fields with
    | .error e => .error e
    | .ok cfgrec =>
      if cfgrec.getD true then
        match gkTop inst fields with
        | .error e => .error e
        | .ok (resF, postF) => .ok (.dict tag resF, .dict tag postF)
      else
        .ok (.dict tag (removeField fields "_recursive_"),
             .dict tag (removeField fields "_recursive_"))
  | _ => .error .assertionError

/-- The list comprehension at the top of `_get_kwargs`: config elements go
through the recursive call, everything else passes through; the result is a
plain untagged list. -/
def gkList (inst : CNode → CNode) :
    List CNode → Except InstErr (List CNode × List CNode)
  | [] => .ok ([], [])
  | x :: xs =>
    if isConfigNode x then
      match gkWorker inst x with
      | .error e => .error e
      | .ok (r, px) =>
        match gkList inst xs with
        | .error e => .error e
        | .ok (rs, ps) => .ok (r :: rs, px :: ps)
    else
      match gkList inst xs with
      | .error e => .error e
      | .ok (rs, ps) => .ok (x :: rs, x :: ps)

/-- The recursive-mode loop over the popped (and, at the root, merged)
top-level fields; an entry under the popped key _recursive_ is skipped,
which realizes the pop performed by _is_recursive on this dict. -/
def gkTop (inst : CNode → CNode) : Fields → Except InstErr (Fields × Fields)
  | [] => .ok ([], [])
  | (k, v) :: rest =>
    if k = "_recursive_" then gkTop inst rest
    else
      match gkTopVal inst v with
      | .error e => .error e
      | .ok (r, pv) =>
        match gkTop inst rest with
        | .error e => .error e
        | .ok (rs, ps) => .ok ((k, r) :: rs, (k, pv) :: ps)

/-- One top-level field value in recursive mode, in the source's branch
order: None passes through; a dict declaring a target is handed to the
construction collaborator `inst`; a plain dict is walked field by field and
the fresh dict receives the original's object-type tag; a list is rebuilt
element by element into a fresh untagged list; any scalar passes through. -/
def gkTopVal (inst : CNode → CNode) : CNode → Except InstErr (CNode × CNode)
  | .null => .ok (.null, .null)
  | .dict vt vfs =>
    if containsKey vfs "_target_" then
      .ok (inst (.dict vt vfs), .dict vt vfs)
    else
      match gkInner inst vfs with
      | .error e => .error e
      | .ok (dres, dpost) => .ok (.dict vt dres, .dict vt dpost)
  | .list vt xs =>
    match gkElems inst xs with
    | .error e => .error e
    | .ok (lres, lpost) => .ok (.list none lres, .list vt lpost)
  | v => .ok (v, v)

/-- The inner loop of the plain-dict branch: a target value is built by the
collaborator, a config value goes through the recursive call, anything else
is copied verbatim (a _recursive_ key of this inner node is data here: the
branch pops nothing from it). -/
def gkInner (inst : CNode → CNode) : Fields → Except InstErr (Fields × Fields)
  | [] => .ok ([], [])
  | (key, value) :: rest =>
    if isTargetNode value then
      match gkInner inst rest with
      | .error e => .error e
      | .ok (rs, ps) => .ok ((key, inst value) :: rs, (key, value) :: ps)
    else if isConfigNode value then
      match gkWorker inst value with
      | .error e => .error e
      | .ok (r, pv) =>
        match gkInner inst rest with
        | .error e => .error e
        | .ok (rs, ps) => .ok ((key, r) :: rs, (key, pv) :: ps)
    else
      match gkInner inst rest with
      | .error e => .error e
      | .ok (rs, ps) => .ok ((key, value) :: rs, (key, value) :: ps)

/-- The element loop of the list branch: a target element is built by the
collaborator, a config element goes through the recursive call and then has
its object-type tag reassigned from the original element (the lst[-1]
metadata reassignment of the source), anything else is appended unchanged. -/
def gkElems (inst : CNode → CNode) :
    List CNode → Except InstErr (List CNode × List CNode)
  | [] => .ok ([], [])
  | x :: xs =>
    if isTargetNode x then
      match gkElems inst xs with
      | .error e => .error e
      | .ok (rs, ps) => .ok (inst x :: rs, x :: ps)
    else if isConfigNode x then
      match gkWorker inst x with
      | .error e => .error e
      | .ok (r, px) =>
        match gkElems inst xs with
        | .error e => .error e
        | .ok (rs, ps) => .ok (setTag (tagOf x) r :: rs, px :: ps)
    else
      match gkElems inst xs with
      | .error e => .error e
      | .ok (rs, ps) => .ok (x :: rs, x :: ps)
end

/-- Embeds `_get_kwargs` (lines 647-714) at an arbitrary call site. A list
config is rebuilt elementwise into a plain untagged list, the keyword
overlay being unused by that branch. A dict config has the recursion flag
popped from the overlay first and then from itself (by _is_recursive), is
merged in place with the remaining overlay, and is walked recursively or
copied verbatim; the fresh result dict keeps no object-type tag at the root
and receives the config's tag otherwise. The construction collaborator
`inst` stands for the out-of-scope instantiate call on nested target nodes.
The second returned node is the post-call state of the caller's config. -/
def getKwargs (inst : CNode → CNode) (config : CNode) (root : Bool)
    (kwargs : Fields) : Except InstErr (CNode × CNode) :=
  match config with
  | .list tag elems =>
    match gkList inst elems with
    | .error e => .error e
    | .ok (res, post) => .ok (.list none res, .list tag post)
  | .dict tag fields =>
    match checkRecFlag kwargs with
    | .error e => .error e
    | .ok kwrec =>
      match checkRecFlag fields with
      | .error e => .error e
      | .ok cfgrec =>
        let merged := mergeFields (removeField fields "_recursive_")
                                  (removeField kwargs "_recursive_")
        if (kwrec <|> cfgrec).getD true then
          match gkTop inst merged with
          | .error e => .error e
          | .ok (resF, postF) =>
            .ok (.dict (if root then none else tag) resF, .dict tag postF)
        else
          .ok (.dict (if root then none else tag) merged, .dict tag merged)
  | _ => .error .assertionError

/-- Claim-side description of what recursive mode does to one field whose
value is None, a target-declaring mapping, or a scalar: the target mapping is
replaced by the collaborator-built object, everything else passes through. -/
def c1val (inst : CNode → CNode) : CNode → CNode
  | .null => .null
  | .dict t fs => if containsKey fs "_target_" then inst (.dict t fs) else .dict t fs
  | v => v

/-- A field value within the scope of claim C1: None, a target-declaring
mapping, or a scalar (no plain containers). -/
def isSimpleVal : CNode → Bool
  | .null => true
  | .dict _ fs => containsKey fs "_target_"
  | .list _ _ => false
  | _ => true

/-- Identity in place of the construction collaborator, for inputs that never
reach a nested target. -/
def instId : CNode → CNode := fun v => v

/-- Construction collaborator for witnesses: builds the opaque object 42. -/
def instW : CNode → CNode := fun _ => .obj (.value 42)

/-- Import environment with modules x, x.y and x.y.z, where the attribute z
of module x.y is the callable plain value 7: a binding that shadows the
submodule x.y.z, as a from-import assignment in x/y/__init__.py does. -/
def envShadow : LocateEnv where
  importable := fun p => p == "x" || p == "x.y" || p == "x.y.z"
  mattr := fun q a =>
    if q == "x" && a == "y" then some (.module "x.y")
    else if q == "x.y" && a == "z" then some (.value 7)
    else none
  vattr := fun _ _ => none
  isType := fun _ => false
  isCallable := fun o => o == .value 7

/-- Import environment in which the single-segment module os exists and is
even regarded callable, so that only the resolver can be blamed for a
failure to find it. -/
def envOs : LocateEnv where
  importable := fun p => p == "os"
  mattr := fun _ _ => none
  vattr := fun _ _ => none
  isType := fun _ => false
  isCallable := fun o => o == .module "os"

/-- Import environment for the target-extractor witness: the plain value 1
is callable, nothing imports. -/
def envT : LocateEnv where
  importable := fun _ => false
  mattr := fun _ _ => none
  vattr := fun _ _ => none
  isType := fun _ => false
  isCallable := fun o => o == .value 1

/-- Witness config fields: a target-declaring mapping, a None and a scalar. -/
def fields1w : Fields :=
  [("a", .dict (some "A") [("_target_", .str "pkgA.Bar"), ("x", .int 1)]),
   ("b", .null), ("c", .int 2)]

/-- Witness config fields carrying a _recursive_ directive and one scalar. -/
def fields2w : Fields := [("_recursive_", .bool true), ("x", .int 1)]

/-- Witness overlay adding one scalar field. -/
def kwargs2w : Fields := [("y", .int 2)]

/-- Witness config fields for shallow mode: recursion off, one nested
target-declaring mapping. -/
def fields7w : Fields :=
  [("_recursive_", .bool false),
   ("a", .dict (some "A") [("_target_", .str "pkgA.Bar"), ("x", .int 1)])]

/-! ### Association-list lemmas -/

theorem containsKey_cons (k0 : String) (v : CNode) (rest : Fields) (k : String) :
    containsKey ((k0, v) :: rest) k = (if k0 = k then true else containsKey rest k) := by
  by_cases h : k0 = k <;> simp [containsKey, lookupField, h]

theorem containsKey_removeField_self (d : Fields) (k : String) :
    containsKey (removeField d k) k = false := by
  induction d with
  | nil => rfl
  | cons p rest ih =>
    obtain ⟨k0, v⟩ := p
    by_cases h : k0 = k
    · simp only [removeField, if_pos h]; exact ih
    · simp only [removeField, if_neg h]
      rw [containsKey_cons, if_neg h]; exact ih

theorem containsKey_removeField_ne (d : Fields) (k k' : String) (h : k' ≠ k) :
    containsKey (removeField d k) k' = containsKey d k' := by
  induction d with
  | nil => rfl
  | cons p rest ih =>
    obtain ⟨k0, v⟩ := p
    by_cases h0 : k0 = k
    · have hne : k0 ≠ k' := fun hh => h (hh.symm.trans h0)
      simp only [removeField, if_pos h0]
      rw [containsKey_cons, if_neg hne]; exact ih
    · simp only [removeField, if_neg h0]
      rw [containsKey_cons, containsKey_cons]
      by_cases h1 : k0 = k'
      · simp [h1]
      · simp only [if_neg h1]; exact ih

theorem removeField_of_not_contains (d : Fields) (k : String)
    (h : containsKey d k = false) : removeField d k = d := by
  induction d with
  | nil => rfl
  | cons p rest ih =>
    obtain ⟨k0, v⟩ := p
    rw [containsKey_cons] at h
    by_cases h0 : k0 = k
    · rw [if_pos h0] at h; exact absurd h (by simp)
    · rw [if_neg h0] at h
      simp only [removeField, if_neg h0]
      rw [ih h]

theorem not_containsKey_forall (d : Fields) (k : String)
    (h : containsKey d k = false) : ∀ p ∈ d, p.1 ≠ k := by
  induction d with
  | nil => intro p hp; exact absurd hp (List.not_mem_nil p)
  | cons q rest ih =>
    obtain ⟨k0, v⟩ := q
    rw [containsKey_cons] at h
    intro p hp
    by_cases h0 : k0 = k
    · rw [if_pos h0] at h; exact absurd h (by simp)
    · rw [if_neg h0] at h
      rcases List.mem_cons.mp hp with rfl | hmem
      · exact h0
      · exact ih h p hmem

theorem mergeInto_nil (f : Fields) : mergeInto f [] = f := by
  induction f with
  | nil => rfl
  | cons p rest ih =>
    obtain ⟨k, v⟩ := p
    simp [mergeInto, lookupField, ih]

theorem mergeFields_nil (f : Fields) : mergeFields f [] = f := by
  simp [mergeFields, mergeInto_nil]

theorem containsKey_mergeInto (f g : Fields) (k : String) :
    containsKey (mergeInto f g) k = containsKey f k := by
  induction f with
  | nil => rfl
  | cons p rest ih =>
    obtain ⟨k0, v⟩ := p
    simp only [mergeInto]
    rw [containsKey_cons, containsKey_cons]
    by_cases h : k0 = k <;> simp [h, ih]

theorem containsKey_append (a b : Fields) (k : String) :
    containsKey (a ++ b) k = (containsKey a k || containsKey b k) := by
  induction a with
  | nil => simp [containsKey, lookupField]
  | cons p rest ih =>
    obtain ⟨k0, v⟩ := p
    simp only [List.cons_append]
    rw [containsKey_cons, containsKey_cons]
    by_cases h : k0 = k <;> simp [h, ih]

theorem containsKey_filterNot (f g : Fields) (k : String) :
    containsKey (g.filter (fun p => !containsKey f p.1)) k =
      (!containsKey f k && containsKey g k) := by
  induction g with
  | nil => simp [containsKey, lookupField]
  | cons p rest ih =>
    obtain ⟨k0, v⟩ := p
    rw [containsKey_cons]
    simp only [List.filter_cons]
    by_cases hf : containsKey f k0
    · by_cases h : k0 = k
      · subst h; simp [hf, ih]
      · simp [hf, if_neg h, ih]
    · by_cases h : k0 = k
      · subst h; simp [hf, containsKey_cons]
      · simp [hf, ih, containsKey_cons, if_neg h]

theorem containsKey_mergeFields (f g : Fields) (k : String) :
    containsKey (mergeFields f g) k = (containsKey f k || containsKey g k) := by
  simp only [mergeFields]
  rw [containsKey_append, containsKey_mergeInto, containsKey_filterNot]
  by_cases hf : containsKey f k <;> simp [hf]

/-! ### Policy and target extractor lemmas -/

theorem checkRecFlag_nonbool (d : Fields) (v : CNode)
    (hv : lookupField d "_recursive_" = some v) (hb : ∀ b, v ≠ .bool b) :
    checkRecFlag d = .error .recursiveNotBool := by
  cases v
  case bool b => exact absurd rfl (hb b)
  all_goals simp [checkRecFlag, hv]

theorem checkRecFlag_error_eq (d : Fields) (e : InstErr)
    (h : checkRecFlag d = .error e) : e = .recursiveNotBool := by
  unfold checkRecFlag at h
  cases hl : lookupField d "_recursive_" with
  | none => rw [hl] at h; cases h
  | some v => rw [hl] at h; cases v <;> simp_all

theorem nonNullV_some_of_ne_null (v : CNode) (h : v ≠ .null) :
    nonNullV (some v) = some v := by
  cases v
  case null => exact absurd rfl h
  all_goals rfl

/-- C5: the recursion-policy extraction returns the overlay's _recursive_
value if present, else the node's value if present, else true; both sources
lose the key; a present non-boolean value fails with the policy type
error. -/
theorem isRecursive_policy (config kwargs : Fields) :
    (∀ rk rc, checkRecFlag kwargs = .ok rk → checkRecFlag config = .ok rc →
       isRecursive config kwargs =
         .ok ((rk <|> rc).getD true,
              removeField config "_recursive_",
              removeField kwargs "_recursive_")) ∧
    (∀ v, lookupField kwargs "_recursive_" = some v → (∀ b, v ≠ .bool b) →
       isRecursive config kwargs = .error .recursiveNotBool) ∧
    (∀ v, lookupField config "_recursive_" = some v → (∀ b, v ≠ .bool b) →
       isRecursive config kwargs = .error .recursiveNotBool) := by
  refine ⟨?_, ?_, ?_⟩
  · intro rk rc hk hc
    simp [isRecursive, hk, hc]
  · intro v hv hb
    simp [isRecursive, checkRecFlag_nonbool kwargs v hv hb]
  · intro v hv hb
    have hc := checkRecFlag_nonbool config v hv hb
    cases hk : checkRecFlag kwargs with
    | ok rk => simp [isRecursive, hk, hc]
    | error e =>
      have he := checkRecFlag_error_eq kwargs e hk
      subst he
      simp [isRecursive, hk]

/-- Witness for C5 at the overlay-false, node-true precedence case. -/
theorem isRecursive_policy_witness :
    checkRecFlag [("_recursive_", CNode.bool false)] = .ok (some false) ∧
    isRecursive [("_recursive_", CNode.bool true)] [("_recursive_", CNode.bool false)] =
      .ok (false, [], []) := by
  refine ⟨rfl, ?_⟩
  exact (isRecursive_policy [("_recursive_", CNode.bool true)]
    [("_recursive_", CNode.bool false)]).1 (some false) (some true) rfl rfl

/-- C8 (amended): convert-mode extraction maps the three literal strings,
rejects other strings with the policy value error, passes a ConvertMode
value through, treats a present None like absence (default NONE, no error),
rejects any other present value with the policy type error, and defaults to
NONE when the key is absent; every present value is popped. -/
theorem popConvertMode_contract (d : Fields) :
    (lookupField d "_convert_" = none → popConvertMode d = .ok (.NONE, d)) ∧
    (lookupField d "_convert_" = some .null →
       popConvertMode d = .ok (.NONE, removeField d "_convert_")) ∧
    (∀ s, lookupField d "_convert_" = some (.str s) →
       popConvertMode d =
         if s = "none" then .ok (.NONE, removeField d "_convert_")
         else if s = "partial" then .ok (.PART, removeField d "_convert_")
         else if s = "all" then .ok (.ALL, removeField d "_convert_")
         else .error .convertBadString) ∧
    (∀ m, lookupField d "_convert_" = some (.cmode m) →
       popConvertMode d = .ok (m, removeField d "_convert_")) ∧
    (∀ v, lookupField d "_convert_" = some v → v ≠ .null →
       (∀ s, v ≠ .str s) → (∀ m, v ≠ .cmode m) →
       popConvertMode d = .error .convertBadType) := by
  refine ⟨?_, ?_, ?_, ?_, ?_⟩
  · intro h; simp [popConvertMode, h]
  · intro h; simp [popConvertMode, h]
  · intro s h; simp [popConvertMode, h]
  · intro m h; simp [popConvertMode, h]
  · intro v h hnull hstr hcm
    cases v
    case null => exact absurd rfl hnull
    case str s => exact absurd rfl (hstr s)
    case cmode m => exact absurd rfl (hcm m)
    all_goals simp [popConvertMode, h]

/-- Counterexample for C8 as stated: a present _convert_ value that is
neither a string nor an enumeration value (None) does not fail with the
policy type error; it is silently treated as the default NONE. -/
theorem popConvertMode_null_passes :
    popConvertMode [("_convert_", CNode.null)] = .ok (ConvertMode.NONE, []) ∧
    popConvertMode [("_convert_", CNode.null)] ≠ .error .convertBadType := by
  refine ⟨rfl, ?_⟩
  intro hc
  rw [show popConvertMode [("_convert_", CNode.null)] = .ok (ConvertMode.NONE, []) from rfl] at hc
  cases hc

/-- Witness for C8 at the string case "partial". -/
theorem popConvertMode_contract_witness :
    lookupField [("_convert_", CNode.str "partial")] "_convert_" = some (.str "partial") ∧
    popConvertMode [("_convert_", CNode.str "partial")] = .ok (.PART, []) := by
  refine ⟨rfl, ?_⟩
  have h := (popConvertMode_contract [("_convert_", CNode.str "partial")]).2.2.1 "partial" rfl
  simpa using h

/-- C6: target extraction pops _target_ from both sources, prefers the
overlay's non-None value, fails with the missing-target error when neither
supplies one, resolves strings through the symbol resolver, returns a type
or callable directly, and rejects any other target value. -/
theorem getTargetType_contract (env : LocateEnv) (config kwargs : Fields) :
    (∀ o c2 k2, getTargetType env config kwargs = .ok (o, c2, k2) →
       c2 = removeField config "_target_" ∧ k2 = removeField kwargs "_target_") ∧
    (∀ v, lookupField kwargs "_target_" = some v → v ≠ .null →
       selTarget config kwargs = some v) ∧
    (selTarget config kwargs = none →
       getTargetType env config kwargs = .error .missingTarget) ∧
    (∀ s, selTarget config kwargs = some (.str s) →
       getTargetType env config kwargs =
         match pyLocate env s with
         | .ok o => .ok (o, removeField config "_target_", removeField kwargs "_target_")
         | .error e => .error (.locateErr e)) ∧
    (∀ o, selTarget config kwargs = some (.obj o) →
       getTargetType env config kwargs =
         if env.isType o || env.isCallable o then
           .ok (o, removeField config "_target_", removeField kwargs "_target_")
         else .error .unsupportedTargetType) ∧
    (∀ v, selTarget config kwargs = some v → (∀ s, v ≠ .str s) → (∀ o, v ≠ .obj o) →
       getTargetType env config kwargs = .error .unsupportedTargetType) := by
  refine ⟨?_, ?_, ?_, ?_, ?_, ?_⟩
  · intro o c2 k2 h
    simp only [getTargetType] at h
    split at h
    · simp at h
    · split at h
      · simp at h; exact ⟨h.2.1.symm, h.2.2.symm⟩
      · simp at h
    · split at h
      · simp at h; exact ⟨h.2.1.symm, h.2.2.symm⟩
      · split at h
        · simp at h; exact ⟨h.2.1.symm, h.2.2.symm⟩
        · simp at h
    · simp at h
  · intro v hv hnull
    simp only [selTarget, hv, nonNullV_some_of_ne_null v hnull]
    rfl
  · intro h; simp [getTargetType, h]
  · intro s h; simp [getTargetType, h]
  · intro o h
    simp only [getTargetType, h]
    by_cases ht : env.isType o
    · simp [ht]
    · by_cases hc : env.isCallable o <;> simp [ht, hc]
  · intro v h hs ho
    cases v
    case str s => exact absurd rfl (hs s)
    case obj o => exact absurd rfl (ho o)
    all_goals simp [getTargetType, h]

/-- Witness for C6: the overlay's callable object target wins over the
node's string target, and both sources are stripped. -/
theorem getTargetType_contract_witness :
    selTarget [("_target_", CNode.str "pkgA.Foo"), ("x", CNode.int 5)]
        [("_target_", CNode.obj (.value 1))] = some (.obj (.value 1)) ∧
    getTargetType envT [("_target_", CNode.str "pkgA.Foo"), ("x", CNode.int 5)]
        [("_target_", CNode.obj (.value 1))] =
      .ok (.value 1, [("x", CNode.int 5)], []) := by
  refine ⟨rfl, ?_⟩
  have h := (getTargetType_contract envT
    [("_target_", CNode.str "pkgA.Foo"), ("x", CNode.int 5)]
    [("_target_", CNode.obj (.value 1))]).2.2.2.2.1 (.value 1) rfl
  exact h.trans rfl

/-! ### Symbol resolver lemmas -/

theorem splitDots_no_dot (cs : List Char) (acc : List Char) (h : '.' ∉ cs) :
    splitDots cs acc = [String.mk (acc.reverse ++ cs)] := by
  induction cs generalizing acc with
  | nil => simp [splitDots]
  | cons c rest ih =>
    have hc : c ≠ '.' := fun hh => h (hh ▸ List.mem_cons_self c rest)
    have hrest : '.' ∉ rest := fun hh => h (List.mem_cons_of_mem c hh)
    simp only [splitDots, if_neg hc]
    rw [ih (c :: acc) hrest]
    simp

theorem pyParts_single (path : String) (hne : path ≠ "") (hnd : '.' ∉ path.data) :
    pyParts path = [path] := by
  have hmk : String.mk path.data = path := by
    cases path
    rfl
  unfold pyParts
  rw [splitDots_no_dot path.data [] hnd]
  simp [hmk, List.filter, hne]

/-- C10: a path with no dot separator always fails with the import error:
the only candidate prefix the loop tries is the empty string at n = 0,
whose import fails and raises, whatever modules the environment offers and
however callable the named object would be; the builtins fallback can never
produce a successful resolution. -/
theorem pyLocate_single_segment_fails (env : LocateEnv) (path : String)
    (hne : path ≠ "") (hnd : '.' ∉ path.data) :
    pyLocate env path = .error .loadModule := by
  unfold pyLocate
  rw [if_neg hne, pyParts_single path hne hnd]
  simp [findMod, pyImport, dotJoin, List.range_succ]

/-- Witness for C10: the module os exists and is even callable in envOs, yet
resolution of the single-segment path "os" raises the import error. -/
theorem pyLocate_single_segment_fails_witness :
    envOs.importable "os" = true ∧
    pyLocate envOs "os" = .error .loadModule :=
  ⟨rfl, pyLocate_single_segment_fails envOs "os" (by decide) (by decide)⟩

/-- C4: on the non-empty path "." every dot-separated piece is empty, the
prefix loop never runs, and _locate fails with the UnboundLocalError of the
never-bound loop variable n rather than with any resolution error. -/
theorem pyLocate_dot_unbound_local (env : LocateEnv) :
    pyLocate env "." = .error .nameError := rfl

theorem findMod_skip (env : LocateEnv) (parts : List String) (L rest : List Nat)
    (h : ∀ m ∈ L, pyImport env (dotJoin (parts.take m)) = none ∧ m ≠ 0) :
    findMod env parts (L ++ rest) = findMod env parts rest := by
  induction L with
  | nil => rfl
  | cons n L' ih =>
    have hn := h n (List.mem_cons_self n L')
    simp only [List.cons_append, findMod, hn.1]
    rw [if_neg hn.2]
    exact ih (fun m hm => h m (List.mem_cons_of_mem n hm))

theorem reverse_range_decomp (len n : Nat) (h : n < len) :
    (List.range len).reverse =
      ((List.range (len - (n + 1))).map (fun i => (n + 1) + i)).reverse
        ++ n :: (List.range n).reverse := by
  have h1 : len = (n + 1) + (len - (n + 1)) := by omega
  calc (List.range len).reverse
      = (List.range ((n + 1) + (len - (n + 1)))).reverse := by rw [← h1]
    _ = (List.range (n + 1)
          ++ (List.range (len - (n + 1))).map (fun i => (n + 1) + i)).reverse := by
        rw [List.range_add]
    _ = ((List.range (len - (n + 1))).map (fun i => (n + 1) + i)).reverse
          ++ (List.range (n + 1)).reverse := by rw [List.reverse_append]
    _ = _ := by rw [List.range_succ]; simp

/-- C3 (amended): the resolver splits the path into segments and attempts
to import prefixes starting from the longest proper prefix - all segments
but the last - shrinking one segment at a time; the first prefix that
imports becomes the base object, and the remaining trailing segments are
resolved as attribute accesses in order, a missing attribute triggering one
fallback import of the accumulated dotted path before failure. -/
theorem pyLocate_proper_prefix_base (env : LocateEnv) (path : String)
    (n : Nat) (b : PyObj)
    (hne : path ≠ "")
    (hn : n < (pyParts path).length)
    (himp : pyImport env (dotJoin ((pyParts path).take n)) = some b)
    (hmax : ∀ m, n < m → m < (pyParts path).length →
       pyImport env (dotJoin ((pyParts path).take m)) = none) :
    pyLocate env path =
      match pyTraverse env (dotJoin ((pyParts path).take n)) b ((pyParts path).drop n) with
      | .ok obj => finalCheck env obj
      | .error e => .error e := by
  unfold pyLocate
  rw [if_neg hne, reverse_range_decomp (pyParts path).length n hn]
  have hskip : ∀ m ∈ ((List.range ((pyParts path).length - (n + 1))).map
      (fun i => (n + 1) + i)).reverse,
      pyImport env (dotJoin ((pyParts path).take m)) = none ∧ m ≠ 0 := by
    intro m hm
    rw [List.mem_reverse] at hm
    obtain ⟨i, hi, rfl⟩ := List.mem_map.mp hm
    rw [List.mem_range] at hi
    exact ⟨hmax ((n + 1) + i) (by omega) (by omega), by omega⟩
  rw [findMod_skip env (pyParts path) _ _ hskip]
  simp only [findMod, himp]
  cases pyTraverse env (dotJoin ((pyParts path).take n)) b ((pyParts path).drop n) <;> rfl

/-- Counterexample for C3 as stated: with modules x, x.y and x.y.z where the
attribute z of x.y shadows the submodule with the callable value 7, the
all-segments-first search the spec describes would import x.y.z and fail the
type-or-callable check, while the code never attempts the full path, stops
at the proper prefix x.y and resolves the shadowing attribute instead. -/
theorem pyLocate_skips_full_path :
    pyLocate envShadow "x.y.z" = .ok (.value 7) ∧
    locateSpecAllSegments envShadow "x.y.z" = .error .invalidType ∧
    pyLocate envShadow "x.y.z" ≠ locateSpecAllSegments envShadow "x.y.z" := by
  refine ⟨rfl, rfl, ?_⟩
  rw [show pyLocate envShadow "x.y.z" = .ok (.value 7) from rfl,
    show locateSpecAllSegments envShadow "x.y.z" = .error .invalidType from rfl]
  intro hc
  cases hc

/-- Witness for C3: in envShadow the longest importable proper prefix of
x.y.z is x.y (two of the three segments), and resolution proceeds by
attribute traversal from that base. -/
theorem pyLocate_proper_prefix_base_witness :
    2 < (pyParts "x.y.z").length ∧
    pyImport envShadow (dotJoin ((pyParts "x.y.z").take 2)) = some (.module "x.y") ∧
    pyLocate envShadow "x.y.z" = .ok (.value 7) := by
  have h := pyLocate_proper_prefix_base envShadow "x.y.z" 2 (.module "x.y")
    (by decide) (by decide) rfl
    (by
      intro m h1 h2
      rw [show (pyParts "x.y.z").length = 3 from rfl] at h2
      omega)
  exact ⟨by decide, rfl, h.trans rfl⟩

/-! ### Instantiation-engine lemmas -/

theorem gkTopVal_simple (inst : CNode → CNode) (v : CNode)
    (h : isSimpleVal v = true) :
    gkTopVal inst v = .ok (c1val inst v, v) := by
  cases v
  case dict t fs =>
    have ht : containsKey fs "_target_" = true := by simpa [isSimpleVal] using h
    simp [gkTopVal, c1val, ht]
  case list t xs => simp [isSimpleVal] at h
  all_goals simp [gkTopVal, c1val]

theorem gkTop_simple (inst : CNode → CNode) (l : Fields)
    (hkeys : ∀ p ∈ l, p.1 ≠ "_recursive_")
    (hshape : ∀ p ∈ l, isSimpleVal p.2 = true) :
    gkTop inst l = .ok (l.map (fun p => (p.1, c1val inst p.2)), l) := by
  induction l with
  | nil => simp [gkTop]
  | cons p rest ih =>
    obtain ⟨k, v⟩ := p
    have hk0 : k ≠ "_recursive_" := hkeys (k, v) (List.mem_cons_self _ _)
    have hv : isSimpleVal v = true := hshape (k, v) (List.mem_cons_self _ _)
    simp only [gkTop, if_neg hk0]
    rw [gkTopVal_simple inst v hv,
      ih (fun q hq => hkeys q (List.mem_cons_of_mem _ hq))
        (fun q hq => hshape q (List.mem_cons_of_mem _ hq))]
    rfl

/-- C1: in recursive mode, a mapping whose (popped, merged) fields are all
None, target-declaring mappings or scalars is rebuilt with the same keys in
the same order, the target mappings replaced by the collaborator-built
objects and every None and scalar passed through unchanged. -/
theorem getKwargs_recursive_field_shapes (inst : CNode → CNode) (tag : Option String)
    (fields kwargs : Fields) (root : Bool) (rk rc : Option Bool)
    (hk : checkRecFlag kwargs = .ok rk) (hc : checkRecFlag fields = .ok rc)
    (htrue : (rk <|> rc).getD true = true)
    (hshape : ∀ p ∈ mergeFields (removeField fields "_recursive_")
        (removeField kwargs "_recursive_"), isSimpleVal p.2 = true) :
    getKwargs inst (.dict tag fields) root kwargs =
      .ok (.dict (if root then none else tag)
             ((mergeFields (removeField fields "_recursive_")
                (removeField kwargs "_recursive_")).map
               (fun p => (p.1, c1val inst p.2))),
           .dict tag (mergeFields (removeField fields "_recursive_")
             (removeField kwargs "_recursive_"))) := by
  have hnorec : containsKey (mergeFields (removeField fields "_recursive_")
      (removeField kwargs "_recursive_")) "_recursive_" = false := by
    rw [containsKey_mergeFields, containsKey_removeField_self,
      containsKey_removeField_self]
    rfl
  have hkeys := not_containsKey_forall _ _ hnorec
  simp only [getKwargs, hk, hc, htrue, if_true]
  rw [gkTop_simple inst _ hkeys hshape]

/-- Witness for C1 on a node with one target-declaring field, one None field
and one scalar field, recursion defaulting to true. -/
theorem getKwargs_recursive_field_shapes_witness :
    checkRecFlag ([] : Fields) = .ok none ∧
    getKwargs instW (.dict (some "T") fields1w) true [] =
      .ok (.dict none [("a", .obj (.value 42)), ("b", .null), ("c", .int 2)],
           .dict (some "T") fields1w) := by
  have hm : mergeFields (removeField fields1w "_recursive_")
      (removeField ([] : Fields) "_recursive_") = fields1w := by
    rw [show removeField ([] : Fields) "_recursive_" = [] from rfl,
      mergeFields_nil, removeField_of_not_contains fields1w "_recursive_" rfl]
  have h := getKwargs_recursive_field_shapes instW (some "T") fields1w [] true
    none none rfl rfl rfl (by rw [hm]; decide)
  rw [hm] at h
  exact ⟨rfl, h.trans rfl⟩

/-- C7: with the recursion flag resolved to false, every (popped, merged)
field is copied verbatim into the result, with no recursive processing: in
particular a nested target-declaring mapping is returned untouched, its
_target_ key included. -/
theorem getKwargs_shallow_verbatim (inst : CNode → CNode) (tag : Option String)
    (fields kwargs : Fields) (root : Bool) (rk rc : Option Bool)
    (hk : checkRecFlag kwargs = .ok rk) (hc : checkRecFlag fields = .ok rc)
    (hfalse : (rk <|> rc).getD true = false) :
    getKwargs inst (.dict tag fields) root kwargs =
      .ok (.dict (if root then none else tag)
             (mergeFields (removeField fields "_recursive_")
               (removeField kwargs "_recursive_")),
           .dict tag (mergeFields (removeField fields "_recursive_")
             (removeField kwargs "_recursive_"))) := by
  simp [getKwargs, hk, hc, hfalse]

/-- Witness for C7: recursion disabled on the node itself; the nested
target-declaring mapping comes back raw, still holding its _target_ key. -/
theorem getKwargs_shallow_verbatim_witness :
    checkRecFlag fields7w = .ok (some false) ∧
    getKwargs instW (.dict (some "T") fields7w) true [] =
      .ok (.dict none
             [("a", CNode.dict (some "A")
               [("_target_", CNode.str "pkgA.Bar"), ("x", CNode.int 1)])],
           .dict (some "T")
             [("a", CNode.dict (some "A")
               [("_target_", CNode.str "pkgA.Bar"), ("x", CNode.int 1)])]) := by
  have h := getKwargs_shallow_verbatim instW (some "T") fields7w [] true
    none (some false) rfl rfl rfl
  refine ⟨rfl, h.trans ?_⟩
  rw [show removeField ([] : Fields) "_recursive_" = [] from rfl, mergeFields_nil]
  rfl

theorem containsKey_eq_keys (d : Fields) (k : String) :
    containsKey d k = (d.map Prod.fst).contains k := by
  induction d with
  | nil => rfl
  | cons p rest ih =>
    obtain ⟨k0, v⟩ := p
    rw [containsKey_cons]
    simp only [List.map_cons, List.contains_cons]
    by_cases h : k0 = k
    · simp [h]
    · have hb : (k == k0) = false := beq_eq_false_iff_ne.mpr (fun hh => h hh.symm)
      rw [if_neg h, hb, Bool.false_or]
      exact ih

theorem containsKey_eq_of_keys (d1 d2 : Fields)
    (h : d1.map Prod.fst = d2.map Prod.fst) (k : String) :
    containsKey d1 k = containsKey d2 k := by
  rw [containsKey_eq_keys, containsKey_eq_keys, h]

theorem gkTop_keys (inst : CNode → CNode) (l : Fields) (rs ps : Fields)
    (h : gkTop inst l = .ok (rs, ps)) :
    rs.map Prod.fst = (removeField l "_recursive_").map Prod.fst ∧
    ps.map Prod.fst = (removeField l "_recursive_").map Prod.fst := by
  induction l generalizing rs ps with
  | nil =>
    simp [gkTop] at h
    obtain ⟨h1, h2⟩ := h
    subst h1
    subst h2
    exact ⟨rfl, rfl⟩
  | cons p rest ih =>
    obtain ⟨k, v⟩ := p
    by_cases hk : k = "_recursive_"
    · simp only [gkTop, if_pos hk] at h
      simp only [removeField, if_pos hk]
      exact ih rs ps h
    · simp only [gkTop, if_neg hk] at h
      cases hv : gkTopVal inst v with
      | error e => rw [hv] at h; cases h
      | ok rp =>
        obtain ⟨r, pv⟩ := rp
        rw [hv] at h
        cases hr : gkTop inst rest with
        | error e => rw [hr] at h; cases h
        | ok rps =>
          obtain ⟨rs', ps'⟩ := rps
          rw [hr] at h
          simp at h
          obtain ⟨h1, h2⟩ := h
          subst h1
          subst h2
          have hih := ih rs' ps' hr
          simp [removeField, hk, hih.1, hih.2]

/-- C2 (amended): the destructive extraction and the overlay merge ARE
observable through the caller's retained reference: after a successful call
on a mapping node the caller's config has lost the _recursive_ key and holds
exactly the union of its own remaining keys with the overlay's. -/
theorem getKwargs_mutates_caller_config (inst : CNode → CNode) (tag : Option String)
    (fields kwargs : Fields) (root : Bool) (r p : CNode)
    (h : getKwargs inst (.dict tag fields) root kwargs = .ok (r, p)) :
    ∃ postF, p = .dict tag postF ∧
      containsKey postF "_recursive_" = false ∧
      (∀ k, k ≠ "_recursive_" →
        containsKey postF k = (containsKey fields k || containsKey kwargs k)) := by
  simp only [getKwargs] at h
  cases hk : checkRecFlag kwargs with
  | error e => rw [hk] at h; cases h
  | ok rk =>
    cases hc : checkRecFlag fields with
    | error e => simp only [hk, hc] at h; cases h
    | ok rc =>
      simp only [hk, hc] at h
      have hmkey : ∀ k', containsKey (mergeFields (removeField fields "_recursive_")
          (removeField kwargs "_recursive_")) k' =
          (containsKey (removeField fields "_recursive_") k'
            || containsKey (removeField kwargs "_recursive_") k') :=
        fun k' => containsKey_mergeFields _ _ k'
      by_cases hrec : (rk <|> rc).getD true = true
      · rw [if_pos hrec] at h
        cases hg : gkTop inst (mergeFields (removeField fields "_recursive_")
            (removeField kwargs "_recursive_")) with
        | error e => rw [hg] at h; cases h
        | ok rps =>
          obtain ⟨resF, postF⟩ := rps
          rw [hg] at h
          simp at h
          obtain ⟨h1, h2⟩ := h
          refine ⟨postF, h2.symm, ?_, ?_⟩
          · have hkeys := (gkTop_keys inst _ resF postF hg).2
            rw [containsKey_eq_of_keys _ _ hkeys "_recursive_",
              containsKey_removeField_self]
          · intro k' hk'
            have hkeys := (gkTop_keys inst _ resF postF hg).2
            rw [containsKey_eq_of_keys _ _ hkeys k',
              containsKey_removeField_ne _ _ _ hk', hmkey k',
              containsKey_removeField_ne _ _ _ hk',
              containsKey_removeField_ne _ _ _ hk']
      · rw [if_neg hrec] at h
        simp at h
        obtain ⟨h1, h2⟩ := h
        refine ⟨mergeFields (removeField fields "_recursive_")
          (removeField kwargs "_recursive_"), h2.symm, ?_, ?_⟩
        · rw [hmkey "_recursive_", containsKey_removeField_self,
            containsKey_removeField_self]
          rfl
        · intro k' hk'
          rw [hmkey k', containsKey_removeField_ne _ _ _ hk',
            containsKey_removeField_ne _ _ _ hk']

/-- Counterexample for C2 as stated: a node carrying a _recursive_ directive
and one field, called with a one-field overlay; the post-call state of the
caller's node has lost the directive and gained the overlay's field, so the
caller's retained reference does observe the extraction and the merge. -/
theorem getKwargs_mutation_observable :
    getKwargs instId (.dict none fields2w) true kwargs2w =
      .ok (.dict none [("x", CNode.int 1), ("y", CNode.int 2)],
           .dict none [("x", CNode.int 1), ("y", CNode.int 2)]) ∧
    CNode.dict none [("x", CNode.int 1), ("y", CNode.int 2)] ≠ .dict none fields2w := by
  constructor
  · simp [getKwargs, fields2w, kwargs2w, checkRecFlag, lookupField, removeField,
      mergeFields, mergeInto, containsKey, gkTop, gkTopVal, instId]
  · simp [fields2w]

/-- Witness for C2: the amended statement applied to the concrete mutated
input of the counterexample. -/
theorem getKwargs_mutates_caller_config_witness :
    ∃ postF, CNode.dict none [("x", CNode.int 1), ("y", CNode.int 2)] = .dict none postF ∧
      containsKey postF "_recursive_" = false ∧
      (∀ k, k ≠ "_recursive_" →
        containsKey postF k = (containsKey fields2w k || containsKey kwargs2w k)) :=
  getKwargs_mutates_caller_config instId none fields2w kwargs2w true
    (.dict none [("x", CNode.int 1), ("y", CNode.int 2)])
    (.dict none [("x", CNode.int 1), ("y", CNode.int 2)])
    (by simp [getKwargs, fields2w, kwargs2w, checkRecFlag, lookupField, removeField,
      mergeFields, mergeInto, containsKey, gkTop, gkTopVal, instId])

theorem gkWorker_returns_container (inst : CNode → CNode) (c r p : CNode)
    (h : gkWorker inst c = .ok (r, p)) : isConfigNode r = true := by
  cases c
  case dict t fs =>
    simp only [gkWorker] at h
    cases hc : checkRecFlag fs with
    | error e => rw [hc] at h; cases h
    | ok rc =>
      simp only [hc] at h
      by_cases hrec : rc.getD true = true
      · rw [if_pos hrec] at h
        cases hg : gkTop inst fs with
        | error e => rw [hg] at h; cases h
        | ok rps =>
          obtain ⟨a, b⟩ := rps
          rw [hg] at h
          simp at h
          rw [← h.1]
          rfl
      · rw [if_neg hrec] at h
        simp at h
        rw [← h.1]
        rfl
  case list t es =>
    simp only [gkWorker] at h
    cases hg : gkList inst es with
    | error e => rw [hg] at h; cases h
    | ok rps =>
      obtain ⟨a, b⟩ := rps
      rw [hg] at h
      simp at h
      rw [← h.1]
      rfl
  all_goals simp only [gkWorker] at h; cases h

theorem tagOf_setTag_of_config (t : Option String) (v : CNode)
    (h : isConfigNode v = true) : tagOf (setTag t v) = t := by
  cases v <;> first | rfl | simp [isConfigNode] at h

/-- C9: tag propagation. A mapping processed by the non-root recursive call
keeps its object-type tag in the result, whatever the mode; an inline plain
dict field gets the original value's tag; a config element of a list branch
gets the original element's tag reassigned; and the root result node does
not get a tag restored - it is the untagged fresh node. -/
theorem objectTypeTag_propagation :
    (∀ inst tag fields r p, gkWorker inst (.dict tag fields) = .ok (r, p) →
       ∃ rf, r = .dict tag rf) ∧
    (∀ inst tag fields kwargs r p,
       getKwargs inst (.dict tag fields) false kwargs = .ok (r, p) →
       ∃ rf, r = .dict tag rf) ∧
    (∀ inst tag fields kwargs r p,
       getKwargs inst (.dict tag fields) true kwargs = .ok (r, p) →
       ∃ rf, r = .dict none rf) ∧
    (∀ inst vt vfs r p, containsKey vfs "_target_" = false →
       gkTopVal inst (.dict vt vfs) = .ok (r, p) → ∃ rf, r = .dict vt rf) ∧
    (∀ inst xs rs ps, gkElems inst xs = .ok (rs, ps) →
       ∀ i x r, xs.get? i = some x → rs.get? i = some r →
         isConfigNode x = true → isTargetNode x = false → tagOf r = tagOf x) := by
  refine ⟨?_, ?_, ?_, ?_, ?_⟩
  · intro inst tag fields r p h
    simp only [gkWorker] at h
    cases hc : checkRecFlag fields with
    | error e => rw [hc] at h; cases h
    | ok rc =>
      simp only [hc] at h
      by_cases hrec : rc.getD true = true
      · rw [if_pos hrec] at h
        cases hg : gkTop inst fields with
        | error e => rw [hg] at h; cases h
        | ok rps =>
          obtain ⟨a, b⟩ := rps
          rw [hg] at h
          simp at h
          exact ⟨a, h.1.symm⟩
      · rw [if_neg hrec] at h
        simp at h
        exact ⟨removeField fields "_recursive_", h.1.symm⟩
  · intro inst tag fields kwargs r p h
    simp only [getKwargs] at h
    cases hk : checkRecFlag kwargs with
    | error e => rw [hk] at h; cases h
    | ok rk =>
      cases hc : checkRecFlag fields with
      | error e => simp only [hk, hc] at h; cases h
      | ok rc =>
        simp only [hk, hc] at h
        by_cases hrec : (rk <|> rc).getD true = true
        · rw [if_pos hrec] at h
          cases hg : gkTop inst (mergeFields (removeField fields "_recursive_")
              (removeField kwargs "_recursive_")) with
          | error e => rw [hg] at h; cases h
          | ok rps =>
            obtain ⟨a, b⟩ := rps
            rw [hg] at h
            simp at h
            exact ⟨a, h.1.symm⟩
        · rw [if_neg hrec] at h
          simp at h
          exact ⟨_, h.1.symm⟩
  · intro inst tag fields kwargs r p h
    simp only [getKwargs] at h
    cases hk : checkRecFlag kwargs with
    | error e => rw [hk] at h; cases h
    | ok rk =>
      cases hc : checkRecFlag fields with
      | error e => simp only [hk, hc] at h; cases h
      | ok rc =>
        simp only [hk, hc] at h
        by_cases hrec : (rk <|> rc).getD true = true
        · rw [if_pos hrec] at h
          cases hg : gkTop inst (mergeFields (removeField fields "_recursive_")
              (removeField kwargs "_recursive_")) with
          | error e => rw [hg] at h; cases h
          | ok rps =>
            obtain ⟨a, b⟩ := rps
            rw [hg] at h
            simp at h
            exact ⟨a, h.1.symm⟩
        · rw [if_neg hrec] at h
          simp at h
          exact ⟨_, h.1.symm⟩
  · intro inst vt vfs r p hnt h
    simp only [gkTopVal, hnt] at h
    cases hg : gkInner inst vfs with
    | error e => rw [hg] at h; cases h
    | ok rps =>
      obtain ⟨a, b⟩ := rps
      rw [hg] at h
      simp at h
      exact ⟨a, h.1.symm⟩
  · intro inst xs
    induction xs with
    | nil =>
      intro rs ps h i x r hx hr hcfg hnt
      cases i <;> cases hx
    | cons x0 xs' ih =>
      intro rs ps h i x r hx hr hcfg hnt
      cases ht0 : isTargetNode x0 with
      | true =>
        simp only [gkElems, ht0, if_true] at h
        cases hrest : gkElems inst xs' with
        | error e => rw [hrest] at h; cases h
        | ok rps =>
          obtain ⟨rs', ps'⟩ := rps
          rw [hrest] at h
          simp at h
          obtain ⟨h1, h2⟩ := h
          subst h1
          subst h2
          cases i with
          | zero =>
            simp at hx
            rw [← hx] at hnt
            rw [ht0] at hnt
            cases hnt
          | succ i' => exact ih rs' ps' hrest i' x r hx hr hcfg hnt
      | false =>
        cases hcfg0 : isConfigNode x0 with
        | true =>
          simp only [gkElems, ht0, hcfg0] at h
          cases hw : gkWorker inst x0 with
          | error e => rw [hw] at h; cases h
          | ok rp =>
            obtain ⟨r', px⟩ := rp
            rw [hw] at h
            cases hrest : gkElems inst xs' with
            | error e => rw [hrest] at h; cases h
            | ok rps =>
              obtain ⟨rs', ps'⟩ := rps
              rw [hrest] at h
              simp at h
              obtain ⟨h1, h2⟩ := h
              subst h1
              subst h2
              cases i with
              | zero =>
                simp at hx hr
                rw [← hx, ← hr,
                  tagOf_setTag_of_config (tagOf x0) r'
                    (gkWorker_returns_container inst x0 r' px hw)]
              | succ i' => exact ih rs' ps' hrest i' x r hx hr hcfg hnt
        | false =>
          simp only [gkElems, ht0, hcfg0] at h
          cases hrest : gkElems inst xs' with
          | error e => rw [hrest] at h; cases h
          | ok rps =>
            obtain ⟨rs', ps'⟩ := rps
            rw [hrest] at h
            simp at h
            obtain ⟨h1, h2⟩ := h
            subst h1
            subst h2
            cases i with
            | zero =>
              simp at hx
              rw [← hx] at hcfg
              rw [hcfg0] at hcfg
              cases hcfg
            | succ i' => exact ih rs' ps' hrest i' x r hx hr hcfg hnt

/-- Witness for C9: a non-root call on a tagged one-field mapping returns a
mapping carrying the same tag. -/
theorem objectTypeTag_propagation_witness :
    ∃ rf, CNode.dict (some "Typ") [("x", CNode.int 1)] = .dict (some "Typ") rf :=
  objectTypeTag_propagation.2.1 instId (some "Typ") [("x", CNode.int 1)] []
    (.dict (some "Typ") [("x", CNode.int 1)]) (.dict (some "Typ") [("x", CNode.int 1)])
    (by simp [getKwargs, checkRecFlag, lookupField, removeField, mergeFields,
      mergeInto, containsKey, gkTop, gkTopVal, instId])
